import Mathlib

/-!
Shallow embedding of the criteria repository of SecureSECO/EMSE-RMs
(file `criteria.py`): the `Criterion` record, the `CriteriaStore`
dictionary, CSV loading, and prompt generation, together with proofs of
the behavioural claims about them.

Modelling conventions:
* Python dictionaries preserve insertion order, so `self.criteria`
  (a `defaultdict(set)`) is an association list in key insertion order.
* A Python `set` of `Criterion` objects (which are compared by identity)
  is a list in insertion order; every observation made by the theorems
  below that corresponds to set content is stated order-insensitively.
* Console prints are pure I/O and have no further effect; they are
  dropped.  Functions that can raise in Python return `Option` or
  `Except`, with `none` and `Except.error` standing for an uncaught
  exception.  All other operations are total, which is the model of the
  fact that they cannot raise.
-/

namespace EMSERMs

/-- A `(moscow, attr)` pair as stored in `Criterion.attributes`
(criteria.py line 11). -/
abbrev MoscowAttr := String × String

/-- `Criterion` (criteria.py lines 5-24): a description, a level, and a set
of (MoSCoW assessment, attr) pairs. -/
structure Criterion where
  description : String
  level : String
  attributes : List MoscowAttr
  deriving DecidableEq

/-- `Criterion.add_attribute` (criteria.py lines 13-14): set insertion, a
no-op when the pair is already present. -/
def Criterion.add_attribute (c : Criterion) (moscow attr : String) : Criterion :=
  if (moscow, attr) ∈ c.attributes then c
  else Criterion.mk c.description c.level (c.attributes ++ [(moscow, attr)])

/-- The dictionary produced by `Criterion.to_dict` (criteria.py lines 16-21). -/
structure CriterionDict where
  description : String
  level : String
  attributes : List MoscowAttr
  deriving DecidableEq

/-- `Criterion.to_dict` (criteria.py lines 16-21). -/
def Criterion.to_dict (c : Criterion) : CriterionDict :=
  CriterionDict.mk c.description c.level c.attributes

/-- `CriteriaStore.criteria` (criteria.py line 31): the `defaultdict(set)`
from research method to its set of criteria, as an association list. -/
abbrev CriteriaStore := List (String × List Criterion)

/-- Plain dictionary lookup, shared by `dict.get` and `defaultdict.__getitem__`. -/
def lookupMethod (s : CriteriaStore) (m : String) : Option (List Criterion) :=
  (s.find? (fun e => e.1 == m)).map (fun e => e.2)

/-- `self.criteria.get(research_method, [])` (criteria.py lines 62 and 87):
`dict.get` never mutates the dictionary. -/
def criteriaGet (s : CriteriaStore) (m : String) : List Criterion :=
  (lookupMethod s m).getD []

/-- `self.criteria[research_method]` (criteria.py lines 51 and 58) on a
`defaultdict(set)`: returns the stored set, first inserting an empty one
when the key is missing.  The second component is the dictionary after the
access. -/
def criteriaGetItem (s : CriteriaStore) (m : String) : List Criterion × CriteriaStore :=
  match lookupMethod s m with
  | some cs => (cs, s)
  | none => ([], s ++ [(m, [])])

/-- Store a new value under a key of the dictionary (the model of mutating
the set object held there). -/
def setEntry : CriteriaStore → String → List Criterion → CriteriaStore
  | [], m, cs => [(m, cs)]
  | e :: rest, m, cs => if e.1 = m then (m, cs) :: rest else e :: setEntry rest m cs

/-- `next((c for c in cs if c.description == d), None)` (criteria.py
lines 51 and 88). -/
def findDesc (cs : List Criterion) (d : String) : Option Criterion :=
  cs.find? (fun c => c.description == d)

/-- In-place mutation of the first criterion carrying the given description
(the object returned by the `next(...)` search on line 51). -/
def updateFirst (f : Criterion → Criterion) (d : String) : List Criterion → List Criterion
  | [] => []
  | c :: rest => if c.description == d then f c :: rest else c :: updateFirst f d rest

/-- `CriteriaStore.add_criterion` (criteria.py lines 49-58). -/
def add_criterion (s : CriteriaStore) (research_method description level moscow attr : String) :
    CriteriaStore :=
  let p := criteriaGetItem s research_method
  match findDesc p.1 description with
  | some _ =>
      setEntry p.2 research_method
        (updateFirst (fun c => c.add_attribute moscow attr) description p.1)
  | none =>
      setEntry p.2 research_method
        (p.1 ++ [Criterion.mk description level [(moscow, attr)]])

/-- A CSV data row, already tokenised into fields by `csv.reader`. -/
abbrev Row := List String

/-- The arity check and unpacking on criteria.py lines 42-46: `some` exactly
when the row has four fields. -/
def parseRow : Row → Option (String × String × String × String)
  | [description, level, moscow, attr] => some (description, level, moscow, attr)
  | _ => none

/-- The row loop of `load_from_csv` (criteria.py lines 41-47): rows without
exactly four fields are skipped (their diagnostic print is pure I/O), the
rest are passed to `add_criterion`. -/
def load_rows (research_method : String) (s : CriteriaStore) : List Row → CriteriaStore
  | [] => s
  | row :: rest =>
      match parseRow row with
      | some (description, level, moscow, attr) =>
          load_rows research_method
            (add_criterion s research_method description level moscow attr) rest
      | none => load_rows research_method s rest

/-- `os.path.basename`: the part of the path after the last slash. -/
def basename (p : String) : String :=
  String.mk ((p.toList.reverse.takeWhile (fun c => c ≠ '/')).reverse)

/-- The stem component of `os.path.splitext` on a slash-free name: strip
from the last dot, except that a name whose characters before its last dot
are all dots is returned whole (the hidden-file rule of posixpath). -/
def splitext_stem (s : String) : String :=
  match s.toList.reverse.dropWhile (fun c => c ≠ '.') with
  | [] => s
  | _ :: stemRev => if stemRev.any (fun c => c ≠ '.') then String.mk stemRev.reverse else s

/-- The relevant filesystem state: the CSV files, each already tokenised by
`csv.reader` into its list of rows, header row included. -/
abbrev FileSystem := List (String × List Row)

/-- `os.path.exists` and `open` both consult this map. -/
def lookupFile (fs : FileSystem) (p : String) : Option (List Row) :=
  (fs.find? (fun e => e.1 == p)).map (fun e => e.2)

/-- `CriteriaStore.load_from_csv` (criteria.py lines 33-47).  `none` models
an uncaught exception: `open` raising on a missing file, or `next(reader)`
raising `StopIteration` on an existing empty file.  Otherwise the research
method is the stem of the base name of the path, the header row is
discarded, and the remaining rows are folded through `add_criterion`. -/
def load_from_csv (fs : FileSystem) (s : CriteriaStore) (file_path : String) :
    Option CriteriaStore :=
  match lookupFile fs file_path with
  | none => none
  | some [] => none
  | some (_ :: rows) => some (load_rows (splitext_stem (basename file_path)) s rows)

/-- `CriteriaStore.get_criteria_for_method` (criteria.py lines 60-62).  The
second component records that the store is read with `dict.get` and hence
left untouched. -/
def get_criteria_for_method (s : CriteriaStore) (research_method : String) :
    List CriterionDict × CriteriaStore :=
  ((criteriaGet s research_method).map Criterion.to_dict, s)

/-- `b.startswith("/")`, used by `os.path.join` to recognise an absolute
second component. -/
def startsWithSlash (b : String) : Bool :=
  match b.toList with
  | [] => false
  | c :: _ => c == '/'

/-- `a.endswith("/")`. -/
def endsWithSlash (a : String) : Bool :=
  match a.toList.reverse with
  | [] => false
  | c :: _ => c == '/'

/-- `os.path.join` (posixpath) restricted to two components: an absolute
second component discards the first; otherwise the two are joined with
exactly one slash. -/
def os_path_join (a b : String) : String :=
  if startsWithSlash b then b
  else if a = "" then b
  else if endsWithSlash a then a ++ b
  else a ++ "/" ++ b

/-- ASCII lower-casing, the behaviour of `str.lower()` on the ASCII
priority strings this repository uses. -/
def lowerChar (c : Char) : Char :=
  if 65 ≤ c.toNat ∧ c.toNat ≤ 90 then Char.ofNat (c.toNat + 32) else c

/-- `s.lower()` for ASCII strings. -/
def strLower (s : String) : String := String.mk (s.toList.map lowerChar)

/-- `sep.join(items)`. -/
def joinSep (sep : String) : List String → String
  | [] => ""
  | [x] => x
  | x :: y :: xs => x ++ sep ++ joinSep sep (y :: xs)

/-- The single-quote character, written out of line. -/
def sq : String := String.mk ['\x27']

/-- The `must_have` partition of criteria.py line 94: the texts of the
attributes whose MoSCoW level lower-cases to "must have". -/
def must_have_texts (c : Criterion) : List String :=
  (c.attributes.filter (fun p => strLower p.1 == "must have")).map (fun p => p.2)

/-- The `other_criteria` partition of criteria.py line 95: the texts of all
remaining attributes. -/
def other_texts (c : Criterion) : List String :=
  (c.attributes.filter (fun p => strLower p.1 != "must have")).map (fun p => p.2)

/-- Fixed prose opening the prompt (criteria.py line 98). -/
def promptIntro : String := "Please check if the article meets the following criterion:\n"

/-- Fixed prose introducing the Must Have block (criteria.py line 99). -/
def mustHeader : String := "It must at least meet the following Must Have criteria:\n"

/-- The placeholder emitted when no Must Have attr exists
(criteria.py line 104). -/
def noMustLine : String := "- No explicitly defined " ++ sq ++ "Must Have" ++ sq ++ " criteria.\n"

/-- The substitution paragraph header (criteria.py line 107). -/
def substHeader : String :=
  "\nIf one of these is missing, it can be replaced by at least two of the following:\n"

/-- The closing instruction (criteria.py line 110). -/
def promptTail : String :=
  "\n\nPlease return only the following: Yes or No, depending on the outcome."

/-- `f"- {c}"` applied to each item. -/
def bulleted (ts : List String) : List String := ts.map (fun t => "- " ++ t)

/-- `CriteriaStore.generate_prompt_for_criterion` (criteria.py lines 83-112).
The second component records that the store is read with `dict.get` and
hence left untouched. -/
def generate_prompt_for_criterion (s : CriteriaStore) (research_method criterion_description : String) :
    String × CriteriaStore :=
  let criteria_set := criteriaGet s research_method
  match findDesc criteria_set criterion_description with
  | none =>
      ("No criterion found for " ++ criterion_description ++ " under " ++ research_method ++ ".", s)
  | some selected =>
      let must_have := must_have_texts selected
      let other_criteria := other_texts selected
      let prompt := promptIntro ++ criterion_description ++ "\n\n" ++ mustHeader
      let prompt := if must_have.isEmpty then prompt ++ noMustLine
        else prompt ++ joinSep "\n" (bulleted must_have) ++ "\n"
      let prompt := if other_criteria.isEmpty then prompt
        else prompt ++ substHeader ++ joinSep "\n" (bulleted other_criteria)
      (prompt ++ promptTail, s)

/-- `CriteriaStore.is_criteria_available` (criteria.py lines 64-81).
`Except.error` models the `StopIteration` escaping from `load_from_csv` on
an existing empty file; the console prints are pure I/O. -/
def is_criteria_available (fs : FileSystem) (s : CriteriaStore) (research_method : String) :
    Except String (Option (List CriterionDict) × CriteriaStore) :=
  let csv_file := os_path_join "csv/" (research_method ++ ".csv")
  match lookupFile fs csv_file with
  | some _ =>
      match load_from_csv fs s csv_file with
      | some s2 =>
          let r := get_criteria_for_method s2 research_method
          Except.ok (some r.1, r.2)
      | none => Except.error "StopIteration"
  | none => Except.ok (none, s)

/-- A query against the store: the two read-only public operations. -/
inductive StoreQuery where
  | getCriteria (research_method : String)
  | genPrompt (research_method : String) (criterion_description : String)

/-- The store as left behind by one query. -/
def runQuery (s : CriteriaStore) : StoreQuery → CriteriaStore
  | StoreQuery.getCriteria m => (get_criteria_for_method s m).2
  | StoreQuery.genPrompt m d => (generate_prompt_for_criterion s m d).2

/-- The store as left behind by a sequence of queries. -/
def runQueries (s : CriteriaStore) : List StoreQuery → CriteriaStore
  | [] => s
  | q :: qs => runQueries (runQuery s q) qs

/-- The `(moscow, attr)` pairs contributed by the well-formed rows
carrying a given description. -/
def pairsFor (rows : List Row) (d : String) : List MoscowAttr :=
  ((rows.filterMap parseRow).filter (fun r => r.1 == d)).map (fun r => (r.2.2.1, r.2.2.2))

/-- The level of the first well-formed row carrying a given description. -/
def firstLevelFor (rows : List Row) (d : String) : Option String :=
  ((rows.filterMap parseRow).find? (fun r => r.1 == d)).map (fun r => r.2.1)

/-- All well-formed rows sharing a description agree on the level. -/
def levelConsistent (rows : List Row) : Prop :=
  ∀ r1 r2, r1 ∈ rows.filterMap parseRow → r2 ∈ rows.filterMap parseRow →
    r1.1 = r2.1 → r1.2.1 = r2.2.1

/-- `t` occurs as a contiguous substring of `u`. -/
def appearsIn (t u : String) : Prop := t.toList <:+: u.toList

/-- `t` is a suffix of `u`. -/
def strSuffix (t u : String) : Prop := t.toList <:+ u.toList

/-- Observable agreement of two criterion lookups: both miss, or both hit
criteria with the same description, the same level and the same attr
set (set membership; the underlying Python sets are unordered). -/
def viewEq (o1 o2 : Option Criterion) : Prop :=
  (o1 = none ↔ o2 = none) ∧
  ∀ c1 c2, o1 = some c1 → o2 = some c2 →
    c1.description = c2.description ∧ c1.level = c2.level ∧
      ∀ p, p ∈ c1.attributes ↔ p ∈ c2.attributes

/-!  Basic algebra of the dictionary model.  -/

theorem lookup_setEntry_self (s : CriteriaStore) (m : String) (cs : List Criterion) :
    lookupMethod (setEntry s m cs) m = some cs := by
  induction s with
  | nil => simp [setEntry, lookupMethod]
  | cons e rest ih =>
      by_cases h : e.1 = m
      · simp [setEntry, h, lookupMethod]
      · simpa [setEntry, h, lookupMethod] using ih

theorem lookup_setEntry_other (s : CriteriaStore) (m mm : String) (cs : List Criterion)
    (h : mm ≠ m) : lookupMethod (setEntry s m cs) mm = lookupMethod s mm := by
  induction s with
  | nil => simp [setEntry, lookupMethod, Ne.symm h]
  | cons e rest ih =>
      by_cases he : e.1 = m
      · simp only [setEntry, if_pos he]
        unfold lookupMethod
        rw [List.find?_cons, List.find?_cons]
        have h1 : (((m, cs) : String × List Criterion).1 == mm) = false := by
          simp [Ne.symm h]
        have h2 : (e.1 == mm) = false := by simp [he, Ne.symm h]
        simp [h1, h2]
      · simp only [setEntry, if_neg he]
        unfold lookupMethod at ih ⊢
        rw [List.find?_cons, List.find?_cons]
        cases hm : (e.1 == mm) with
        | true => simp [hm]
        | false => simpa [hm] using ih

theorem setEntry_of_lookup (s : CriteriaStore) (m : String) (cs : List Criterion)
    (h : lookupMethod s m = some cs) : setEntry s m cs = s := by
  induction s with
  | nil => simp [lookupMethod] at h
  | cons e rest ih =>
      unfold lookupMethod at h
      rw [List.find?_cons] at h
      cases he : (e.1 == m) with
      | true =>
          simp only [he] at h
          have he2 : e.2 = cs := by simpa using h
          have he1 : e.1 = m := by simpa using he
          subst he1
          simp [setEntry, ← he2]
      | false =>
          simp only [he] at h
          have he1 : ¬ e.1 = m := by simpa using he
          simp only [setEntry, if_neg he1]
          rw [ih h]

theorem lookup_append_single_other (s : CriteriaStore) (m mm : String) (cs : List Criterion)
    (h : mm ≠ m) : lookupMethod (s ++ [(m, cs)]) mm = lookupMethod s mm := by
  unfold lookupMethod
  rw [List.find?_append]
  cases hfind : s.find? (fun e => e.1 == mm) with
  | some e => simp
  | none => simp [Ne.symm h]

theorem lookup_append_single_self (s : CriteriaStore) (m : String) (cs : List Criterion)
    (h : lookupMethod s m = none) : lookupMethod (s ++ [(m, cs)]) m = some cs := by
  unfold lookupMethod at h ⊢
  rw [List.find?_append]
  cases hfind : s.find? (fun e => e.1 == m) with
  | some e => simp [hfind] at h
  | none => simp

/-!  Description-preserving updates.  -/

theorem add_attribute_description (c : Criterion) (mo a : String) :
    (c.add_attribute mo a).description = c.description := by
  unfold Criterion.add_attribute
  split <;> rfl

theorem add_attribute_level (c : Criterion) (mo a : String) :
    (c.add_attribute mo a).level = c.level := by
  unfold Criterion.add_attribute
  split <;> rfl

theorem mem_add_attribute (c : Criterion) (mo a : String) (p : MoscowAttr) :
    p ∈ (c.add_attribute mo a).attributes ↔ p ∈ c.attributes ∨ p = (mo, a) := by
  by_cases h : (mo, a) ∈ c.attributes
  · simp only [Criterion.add_attribute, if_pos h]
    constructor
    · exact Or.inl
    · rintro (hp | rfl)
      · exact hp
      · exact h
  · simp only [Criterion.add_attribute, if_neg h]
    simp

theorem findDesc_some_desc {cs : List Criterion} {d : String} {c : Criterion}
    (h : findDesc cs d = some c) : c.description = d := by
  have := List.find?_some h
  simpa using this

theorem findDesc_none_iff (cs : List Criterion) (d : String) :
    findDesc cs d = none ↔ ∀ c ∈ cs, c.description ≠ d := by
  unfold findDesc
  rw [List.find?_eq_none]
  simp

theorem findDesc_append (cs cs2 : List Criterion) (d : String) :
    findDesc (cs ++ cs2) d = (findDesc cs d).or (findDesc cs2 d) := by
  unfold findDesc
  exact List.find?_append

theorem updateFirst_of_none {cs : List Criterion} {d : String} (f : Criterion → Criterion)
    (h : findDesc cs d = none) : updateFirst f d cs = cs := by
  induction cs with
  | nil => rfl
  | cons c rest ih =>
      unfold findDesc at h
      rw [List.find?_cons] at h
      cases hc : (c.description == d) with
      | true => simp [hc] at h
      | false =>
          simp only [hc] at h
          simp [updateFirst, hc, ih h]

theorem findDesc_updateFirst_self {cs : List Criterion} {d : String} {c : Criterion}
    (f : Criterion → Criterion) (hf : ∀ x, (f x).description = x.description)
    (h : findDesc cs d = some c) : findDesc (updateFirst f d cs) d = some (f c) := by
  induction cs with
  | nil => simp [findDesc] at h
  | cons c0 rest ih =>
      unfold findDesc at h
      rw [List.find?_cons] at h
      cases hc : (c0.description == d) with
      | true =>
          simp only [hc] at h
          cases h
          simp [updateFirst, hc, findDesc, List.find?_cons, hf, hc]
      | false =>
          simp only [hc] at h
          have := ih h
          simp [updateFirst, hc, findDesc, List.find?_cons] at this ⊢
          simpa [hc] using this

theorem findDesc_updateFirst_other {cs : List Criterion} {d dd : String}
    (f : Criterion → Criterion) (hf : ∀ x, (f x).description = x.description)
    (h : dd ≠ d) : findDesc (updateFirst f d cs) dd = findDesc cs dd := by
  induction cs with
  | nil => rfl
  | cons c0 rest ih =>
      cases hc : (c0.description == d) with
      | true =>
          have hd : c0.description = d := by simpa using hc
          have hthis : ((f c0).description == dd) = (c0.description == dd) := by rw [hf]
          have hdd : (c0.description == dd) = false := by
            rw [hd]; exact beq_eq_false_iff_ne.mpr (Ne.symm h)
          simp [updateFirst, hc, findDesc, List.find?_cons, hthis, hdd]
      | false =>
          simp only [updateFirst, hc]
          simp only [findDesc, List.find?_cons] at ih ⊢
          cases hdd : (c0.description == dd) with
          | true => simp [hdd]
          | false => simpa [hdd] using ih

theorem updateFirst_map_desc {cs : List Criterion} {d : String}
    (f : Criterion → Criterion) (hf : ∀ x, (f x).description = x.description) :
    (updateFirst f d cs).map Criterion.description = cs.map Criterion.description := by
  induction cs with
  | nil => rfl
  | cons c0 rest ih =>
      cases hc : (c0.description == d) with
      | true => simp [updateFirst, hc, hf]
      | false => simp [updateFirst, hc, ih]

theorem updateFirst_noop {cs : List Criterion} {d : String} {c : Criterion}
    (f : Criterion → Criterion) (h : findDesc cs d = some c) (hc : f c = c) :
    updateFirst f d cs = cs := by
  induction cs with
  | nil => rfl
  | cons c0 rest ih =>
      unfold findDesc at h
      rw [List.find?_cons] at h
      cases h0 : (c0.description == d) with
      | true =>
          simp only [h0] at h
          cases h
          simp [updateFirst, h0, hc]
      | false =>
          simp only [h0] at h
          simp [updateFirst, h0, ih h]

/-!  The net effect of `add_criterion` on the dictionary.  -/

theorem criteriaGet_add_self (s : CriteriaStore) (m de l mo a : String) :
    criteriaGet (add_criterion s m de l mo a) m =
      match findDesc (criteriaGet s m) de with
      | some _ => updateFirst (fun c => c.add_attribute mo a) de (criteriaGet s m)
      | none => criteriaGet s m ++ [Criterion.mk de l [(mo, a)]] := by
  unfold add_criterion criteriaGetItem
  cases hl : lookupMethod s m with
  | some cs =>
      have hg : criteriaGet s m = cs := by simp [criteriaGet, hl]
      simp only [hl, hg]
      cases hf : findDesc cs de with
      | some c =>
          simp only [hf]
          simp [criteriaGet, lookup_setEntry_self]
      | none =>
          simp only [hf]
          simp [criteriaGet, lookup_setEntry_self]
  | none =>
      have hg : criteriaGet s m = [] := by simp [criteriaGet, hl]
      have hf : findDesc ([] : List Criterion) de = none := rfl
      simp only [hl, hg, hf]
      simp [criteriaGet, lookup_setEntry_self]

theorem criteriaGet_add_other (s : CriteriaStore) (m mm de l mo a : String) (h : mm ≠ m) :
    criteriaGet (add_criterion s m de l mo a) mm = criteriaGet s mm := by
  unfold add_criterion criteriaGetItem
  cases hl : lookupMethod s m with
  | some cs =>
      simp only [hl]
      cases hf : findDesc cs de with
      | some c =>
          simp only [hf]
          simp [criteriaGet, lookup_setEntry_other _ _ _ _ h]
      | none =>
          simp only [hf]
          simp [criteriaGet, lookup_setEntry_other _ _ _ _ h]
  | none =>
      have hf : findDesc ([] : List Criterion) de = none := rfl
      simp only [hl, hf]
      simp [criteriaGet, lookup_setEntry_other _ _ _ _ h,
        lookup_append_single_other _ _ _ _ h]

/-!  Row parsing and the loading loop.  -/

theorem parseRow_eq_none_iff (row : Row) : parseRow row = none ↔ row.length ≠ 4 := by
  match row with
  | [] => simp [parseRow]
  | [a] => simp [parseRow]
  | [a, b] => simp [parseRow]
  | [a, b, c] => simp [parseRow]
  | [a, b, c, d] => simp [parseRow]
  | a :: b :: c :: d :: e :: t => simp [parseRow]

theorem load_rows_skip (m : String) (s : CriteriaStore) (bad : Row) (rest : List Row)
    (h : bad.length ≠ 4) : load_rows m s (bad :: rest) = load_rows m s rest := by
  have hp : parseRow bad = none := (parseRow_eq_none_iff bad).mpr h
  simp [load_rows, hp]

theorem countP_desc_updateFirst (f : Criterion → Criterion)
    (hf : ∀ x, (f x).description = x.description) (d dd : String) (cs : List Criterion) :
    (updateFirst f d cs).countP (fun c => c.description == dd) =
      cs.countP (fun c => c.description == dd) := by
  induction cs with
  | nil => rfl
  | cons c0 rest ih =>
      cases hc : (c0.description == d) with
      | true => simp [updateFirst, hc, List.countP_cons, hf]
      | false => simp [updateFirst, hc, List.countP_cons, ih]

theorem criteriaGet_add_of_found {s : CriteriaStore} {m de : String} {c : Criterion}
    (l mo a : String) (h : findDesc (criteriaGet s m) de = some c) :
    criteriaGet (add_criterion s m de l mo a) m =
      updateFirst (fun x => x.add_attribute mo a) de (criteriaGet s m) := by
  rw [criteriaGet_add_self, h]

theorem criteriaGet_add_of_none {s : CriteriaStore} {m de : String}
    (l mo a : String) (h : findDesc (criteriaGet s m) de = none) :
    criteriaGet (add_criterion s m de l mo a) m =
      criteriaGet s m ++ [Criterion.mk de l [(mo, a)]] := by
  rw [criteriaGet_add_self, h]

theorem add_criterion_level_irrelevant (s : CriteriaStore) (m de la lb mo a : String)
    (h : (findDesc (criteriaGet s m) de).isSome) :
    add_criterion s m de la mo a = add_criterion s m de lb mo a := by
  unfold add_criterion criteriaGetItem
  cases hl : lookupMethod s m with
  | some cs =>
      have hg : criteriaGet s m = cs := by simp [criteriaGet, hl]
      rw [hg] at h
      simp only [hl]
      cases hf : findDesc cs de with
      | none => rw [hf] at h; simp at h
      | some c => simp only [hf]
  | none =>
      have hg : criteriaGet s m = [] := by simp [criteriaGet, hl]
      rw [hg] at h
      simp [findDesc] at h

/-!  Membership in the two prompt partitions.  -/

theorem mem_must_have_texts (c : Criterion) (t : String) :
    t ∈ must_have_texts c ↔ ∃ pr, (pr, t) ∈ c.attributes ∧ strLower pr = "must have" := by
  unfold must_have_texts
  constructor
  · intro ht
    obtain ⟨p, hp, hsnd⟩ := List.mem_map.mp ht
    obtain ⟨hmem, hpred⟩ := List.mem_filter.mp hp
    refine ⟨p.1, ?_, by simpa using hpred⟩
    have hpt : (p.1, t) = p := by rw [← hsnd]
    exact hpt ▸ hmem
  · rintro ⟨pr, hmem, hlow⟩
    exact List.mem_map.mpr ⟨(pr, t), List.mem_filter.mpr ⟨hmem, by simpa using hlow⟩, rfl⟩

theorem mem_other_texts (c : Criterion) (t : String) :
    t ∈ other_texts c ↔ ∃ pr, (pr, t) ∈ c.attributes ∧ strLower pr ≠ "must have" := by
  unfold other_texts
  constructor
  · intro ht
    obtain ⟨p, hp, hsnd⟩ := List.mem_map.mp ht
    obtain ⟨hmem, hpred⟩ := List.mem_filter.mp hp
    refine ⟨p.1, ?_, by simpa using hpred⟩
    have hpt : (p.1, t) = p := by rw [← hsnd]
    exact hpt ▸ hmem
  · rintro ⟨pr, hmem, hlow⟩
    exact List.mem_map.mpr ⟨(pr, t), List.mem_filter.mpr ⟨hmem, by simpa using hlow⟩, rfl⟩

/-- C1: for every research method, loading two CSV rows with the same
description but different (moscow, attribute) values yields exactly one
criterion for that description, whose attribute set contains both pairs
and whose level is the level of the first-loaded row; and the level
argument of every add_criterion call hitting an existing description is
discarded. -/
theorem c1_first_level_wins (s : CriteriaStore) (m d l1 mo1 a1 l2 mo2 a2 : String)
    (hfresh : findDesc (criteriaGet s m) d = none) (hdiff : ((mo1, a1) : MoscowAttr) ≠ (mo2, a2)) :
    ((criteriaGet (load_rows m s [[d, l1, mo1, a1], [d, l2, mo2, a2]]) m).countP
        (fun c => c.description == d) = 1) ∧
    (∃ c, findDesc (criteriaGet (load_rows m s [[d, l1, mo1, a1], [d, l2, mo2, a2]]) m) d = some c ∧
      c.level = l1 ∧ (mo1, a1) ∈ c.attributes ∧ (mo2, a2) ∈ c.attributes) ∧
    (∀ s2 m2 de la lb mo aa, (findDesc (criteriaGet s2 m2) de).isSome →
      add_criterion s2 m2 de la mo aa = add_criterion s2 m2 de lb mo aa) := by
  have hload : load_rows m s [[d, l1, mo1, a1], [d, l2, mo2, a2]] =
      add_criterion (add_criterion s m d l1 mo1 a1) m d l2 mo2 a2 := rfl
  have h1 : criteriaGet (add_criterion s m d l1 mo1 a1) m =
      criteriaGet s m ++ [Criterion.mk d l1 [(mo1, a1)]] :=
    criteriaGet_add_of_none l1 mo1 a1 hfresh
  have hc1 : findDesc (criteriaGet (add_criterion s m d l1 mo1 a1) m) d =
      some (Criterion.mk d l1 [(mo1, a1)]) := by
    rw [h1, findDesc_append, hfresh]
    simp [findDesc]
  have h2 : criteriaGet (load_rows m s [[d, l1, mo1, a1], [d, l2, mo2, a2]]) m =
      updateFirst (fun x => x.add_attribute mo2 a2) d
        (criteriaGet (add_criterion s m d l1 mo1 a1) m) := by
    rw [hload]
    exact criteriaGet_add_of_found l2 mo2 a2 hc1
  have hdescpre : ∀ x : Criterion, (x.add_attribute mo2 a2).description = x.description :=
    fun x => add_attribute_description x mo2 a2
  have hcfin : findDesc (criteriaGet (load_rows m s [[d, l1, mo1, a1], [d, l2, mo2, a2]]) m) d =
      some ((Criterion.mk d l1 [(mo1, a1)]).add_attribute mo2 a2) := by
    rw [h2]
    exact findDesc_updateFirst_self _ hdescpre hc1
  have hnotmem : ((mo2, a2) : MoscowAttr) ∉ [((mo1, a1) : MoscowAttr)] := by
    simpa using Ne.symm hdiff
  have hform : (Criterion.mk d l1 [(mo1, a1)]).add_attribute mo2 a2 =
      Criterion.mk d l1 [(mo1, a1), (mo2, a2)] := by
    unfold Criterion.add_attribute
    rw [if_neg hnotmem]
    rfl
  refine ⟨?_, ⟨_, hcfin, ?_, ?_, ?_⟩, ?_⟩
  · rw [h2, countP_desc_updateFirst _ hdescpre, h1, List.countP_append]
    have hz : (criteriaGet s m).countP (fun c => c.description == d) = 0 := by
      rw [List.countP_eq_zero]
      intro c hc
      have := (findDesc_none_iff _ _).mp hfresh c hc
      simpa using this
    simp [hz, List.countP_cons]
  · rw [hform]
  · rw [hform]; simp
  · rw [hform]; simp
  · intro s2 m2 de la lb mo aa hsome
    exact add_criterion_level_irrelevant s2 m2 de la lb mo aa hsome

/-- Witness for C1 at a concrete fresh store and two concrete rows. -/
theorem c1_first_level_wins_witness :
    findDesc (criteriaGet ([] : CriteriaStore) "Experiments") "Randomization" = none ∧
    ((("Must Have", "random assignment used") : MoscowAttr) ≠ ("Could Have", "blinding applied")) ∧
    (((criteriaGet (load_rows "Experiments" []
          [["Randomization", "high", "Must Have", "random assignment used"],
           ["Randomization", "low", "Could Have", "blinding applied"]]) "Experiments").countP
        (fun c => c.description == "Randomization") = 1) ∧
      (∃ c, findDesc (criteriaGet (load_rows "Experiments" []
          [["Randomization", "high", "Must Have", "random assignment used"],
           ["Randomization", "low", "Could Have", "blinding applied"]]) "Experiments")
            "Randomization" = some c ∧
        c.level = "high" ∧ (("Must Have", "random assignment used") : MoscowAttr) ∈ c.attributes ∧
          (("Could Have", "blinding applied") : MoscowAttr) ∈ c.attributes) ∧
      (∀ s2 m2 de la lb mo aa, (findDesc (criteriaGet s2 m2) de).isSome →
        add_criterion s2 m2 de la mo aa = add_criterion s2 m2 de lb mo aa)) :=
  ⟨rfl, by decide,
    c1_first_level_wins [] "Experiments" "Randomization" "high" "Must Have"
      "random assignment used" "low" "Could Have" "blinding applied" rfl (by decide)⟩

/-- C5: during loading, every row whose field count is not four is skipped
without effect and without raising (the loader is a total function), and
the rows before and after it are loaded exactly as if it were absent. -/
theorem c5_malformed_row_skipped (m : String) (s : CriteriaStore) (pre post : List Row)
    (bad : Row) (h : bad.length ≠ 4) :
    load_rows m s (pre ++ bad :: post) = load_rows m s (pre ++ post) := by
  induction pre generalizing s with
  | nil => simpa using load_rows_skip m s bad post h
  | cons r pre ih =>
      cases hp : parseRow r with
      | some q =>
          obtain ⟨d, l, mo, a⟩ := q
          simp only [List.cons_append, load_rows, hp]
          exact ih _
      | none =>
          simp only [List.cons_append, load_rows, hp]
          exact ih _

/-- Witness for C5: a three-field row between two well-formed rows. -/
theorem c5_malformed_row_skipped_witness :
    (["a", "b", "c"] : Row).length ≠ 4 ∧
    load_rows "m" [] ([["d1", "l", "mo", "x"]] ++ ["a", "b", "c"] :: [["d2", "l", "mo", "y"]]) =
      load_rows "m" [] ([["d1", "l", "mo", "x"]] ++ [["d2", "l", "mo", "y"]]) :=
  ⟨by decide, c5_malformed_row_skipped "m" [] [["d1", "l", "mo", "x"]] [["d2", "l", "mo", "y"]]
      ["a", "b", "c"] (by decide)⟩

/-- C6: when no criterion with the requested description exists under the
method, generate_prompt_for_criterion returns the diagnostic string naming
the description and the method; being a total function it cannot raise. -/
theorem c6_missing_criterion_is_soft (s : CriteriaStore) (m d : String)
    (h : ∀ c ∈ criteriaGet s m, c.description ≠ d) :
    (generate_prompt_for_criterion s m d).1 =
      "No criterion found for " ++ d ++ " under " ++ m ++ "." := by
  have hf : findDesc (criteriaGet s m) d = none := (findDesc_none_iff _ _).mpr h
  simp [generate_prompt_for_criterion, hf]

/-- Witness for C6 at a store that carries a criterion with another
description. -/
theorem c6_missing_criterion_is_soft_witness :
    (∀ c ∈ criteriaGet [("m", [Criterion.mk "A" "l" [("Must Have", "x")]])] "m",
      c.description ≠ "B") ∧
    (generate_prompt_for_criterion [("m", [Criterion.mk "A" "l" [("Must Have", "x")]])] "m" "B").1 =
      "No criterion found for " ++ "B" ++ " under " ++ "m" ++ "." :=
  ⟨by decide, c6_missing_criterion_is_soft _ "m" "B" (by decide)⟩

/-- C7: an attribute text is placed in the must_have partition exactly when
its priority lower-cases to "must have", every other priority string goes
to the other partition, and the three sample spellings all lower-case to
"must have". -/
theorem c7_case_insensitive_must_have (c : Criterion) :
    (∀ t, t ∈ must_have_texts c ↔ ∃ pr, (pr, t) ∈ c.attributes ∧ strLower pr = "must have") ∧
    (∀ t, t ∈ other_texts c ↔ ∃ pr, (pr, t) ∈ c.attributes ∧ strLower pr ≠ "must have") ∧
    strLower "Must Have" = "must have" ∧ strLower "must have" = "must have" ∧
      strLower "MUST HAVE" = "must have" :=
  ⟨mem_must_have_texts c, mem_other_texts c, by decide, by decide, by decide⟩

/-- C8: for a method the store knows nothing about,
get_criteria_for_method returns the empty list; being a total function it
cannot raise. -/
theorem c8_unknown_method_empty (s : CriteriaStore) (m : String)
    (h : lookupMethod s m = none) : (get_criteria_for_method s m).1 = [] := by
  simp [get_criteria_for_method, criteriaGet, h]

/-- Witness for C8 on the empty store. -/
theorem c8_unknown_method_empty_witness :
    lookupMethod ([] : CriteriaStore) "NoSuchMethod" = none ∧
    (get_criteria_for_method ([] : CriteriaStore) "NoSuchMethod").1 = [] :=
  ⟨rfl, c8_unknown_method_empty [] "NoSuchMethod" rfl⟩

/-- C10: the two query operations read the dictionary with dict.get only,
so any sequence of queries leaves the store, hence the set of known
methods and every criteria set, unchanged. -/
theorem c10_queries_do_not_mutate (s : CriteriaStore) (qs : List StoreQuery) :
    runQueries s qs = s ∧ (∀ m, criteriaGet (runQueries s qs) m = criteriaGet s m) ∧
      (runQueries s qs).map Prod.fst = s.map Prod.fst := by
  have hrun : runQueries s qs = s := by
    induction qs generalizing s with
    | nil => rfl
    | cons q qs ih =>
        have hq : runQuery s q = s := by
          cases q with
          | getCriteria mm => rfl
          | genPrompt mm dd =>
              show (generate_prompt_for_criterion s mm dd).2 = s
              unfold generate_prompt_for_criterion
              cases hfd : findDesc (criteriaGet s mm) dd with
              | none => simp [hfd]
              | some c => simp [hfd]
        rw [runQueries, hq]
        exact ih s
  exact ⟨hrun, fun m => by rw [hrun], by rw [hrun]⟩

/-!  Substring facts used for the prompt-structure claim.  -/

theorem toList_append (a b : String) : (a ++ b).toList = a.toList ++ b.toList := rfl

theorem appearsIn_append_left {t u : String} (v : String) (h : appearsIn t u) :
    appearsIn t (u ++ v) := by
  obtain ⟨p, q, hpq⟩ := h
  exact ⟨p, q ++ v.toList, by rw [toList_append, ← hpq]; simp⟩

theorem appearsIn_append_right {t u : String} (v : String) (h : appearsIn t u) :
    appearsIn t (v ++ u) := by
  obtain ⟨p, q, hpq⟩ := h
  exact ⟨v.toList ++ p, q, by rw [toList_append, ← hpq]; simp⟩

theorem appearsIn_of_right (t v : String) : appearsIn t (v ++ t) :=
  ⟨v.toList, [], by simp [toList_append]⟩

theorem appearsIn_refl (t : String) : appearsIn t t := ⟨[], [], by simp⟩

theorem appearsIn_joinSep {x : String} (sep : String) {l : List String} (h : x ∈ l) :
    appearsIn x (joinSep sep l) := by
  induction l with
  | nil => cases h
  | cons y ys ih =>
      cases ys with
      | nil =>
          have hx : x = y := by simpa using h
          subst hx
          exact appearsIn_refl x
      | cons z zs =>
          show appearsIn x (y ++ sep ++ joinSep sep (z :: zs))
          rcases List.mem_cons.mp h with hx | hx
          · subst hx
            exact appearsIn_append_left _ (appearsIn_append_left _ (appearsIn_refl x))
          · exact appearsIn_append_right _ (ih hx)

theorem strSuffix_append (t v : String) : strSuffix t (v ++ t) :=
  ⟨v.toList, by simp [toList_append]⟩

/-- The prompt produced for a found criterion, as one closed form. -/
theorem generate_prompt_eq (s : CriteriaStore) (m d : String) (c : Criterion)
    (hfind : findDesc (criteriaGet s m) d = some c) :
    (generate_prompt_for_criterion s m d).1 =
      promptIntro ++ d ++ "\n\n" ++ mustHeader ++
        (if (must_have_texts c).isEmpty then noMustLine
          else joinSep "\n" (bulleted (must_have_texts c)) ++ "\n") ++
        (if (other_texts c).isEmpty then ""
          else substHeader ++ joinSep "\n" (bulleted (other_texts c))) ++
        promptTail := by
  cases h1 : (must_have_texts c).isEmpty <;> cases h2 : (other_texts c).isEmpty <;>
    simp [generate_prompt_for_criterion, hfind, h1, h2, String.append_assoc]

/-- C2: for a found criterion the prompt states the description, lists
every Must-Have attribute text (or the placeholder line when there is
none), carries the two-of-N substitution paragraph listing all other
attribute texts exactly when at least one exists, ends with the
Yes-or-No instruction, and the two partitions are exactly the attributes
whose priority does or does not lower-case to "must have". -/
theorem c2_prompt_structure (s : CriteriaStore) (m d : String) (c : Criterion)
    (hfind : findDesc (criteriaGet s m) d = some c) :
    appearsIn d (generate_prompt_for_criterion s m d).1 ∧
    (must_have_texts c = [] → appearsIn noMustLine (generate_prompt_for_criterion s m d).1) ∧
    (∀ t ∈ must_have_texts c, appearsIn ("- " ++ t) (generate_prompt_for_criterion s m d).1) ∧
    (other_texts c ≠ [] → appearsIn substHeader (generate_prompt_for_criterion s m d).1 ∧
      ∀ t ∈ other_texts c, appearsIn ("- " ++ t) (generate_prompt_for_criterion s m d).1) ∧
    (other_texts c = [] → (generate_prompt_for_criterion s m d).1 =
      promptIntro ++ d ++ "\n\n" ++ mustHeader ++
        (if must_have_texts c = [] then noMustLine
          else joinSep "\n" (bulleted (must_have_texts c)) ++ "\n") ++ promptTail) ∧
    strSuffix promptTail (generate_prompt_for_criterion s m d).1 ∧
    (∀ t, t ∈ must_have_texts c ↔ ∃ pr, (pr, t) ∈ c.attributes ∧ strLower pr = "must have") ∧
    (∀ t, t ∈ other_texts c ↔ ∃ pr, (pr, t) ∈ c.attributes ∧ strLower pr ≠ "must have") := by
  have heq := generate_prompt_eq s m d c hfind
  refine ⟨?_, ?_, ?_, ?_, ?_, ?_, mem_must_have_texts c, mem_other_texts c⟩
  · rw [heq]
    exact appearsIn_append_left _ (appearsIn_append_left _ (appearsIn_append_left _
      (appearsIn_append_left _ (appearsIn_append_left _ (appearsIn_of_right d promptIntro)))))
  · intro h
    have hif : (if (must_have_texts c).isEmpty then noMustLine
        else joinSep "\n" (bulleted (must_have_texts c)) ++ "\n") = noMustLine := by
      rw [h]; simp
    rw [heq, hif]
    exact appearsIn_append_left _ (appearsIn_append_left _ (appearsIn_of_right _ _))
  · intro t ht
    cases hmh : (must_have_texts c).isEmpty with
    | true =>
        rw [List.isEmpty_iff.mp hmh] at ht
        cases ht
    | false =>
        have hif : (if (must_have_texts c).isEmpty then noMustLine
            else joinSep "\n" (bulleted (must_have_texts c)) ++ "\n") =
            joinSep "\n" (bulleted (must_have_texts c)) ++ "\n" := by
          rw [hmh]; simp
        have hmem : ("- " ++ t) ∈ bulleted (must_have_texts c) :=
          List.mem_map.mpr ⟨t, ht, rfl⟩
        rw [heq, hif]
        exact appearsIn_append_left _ (appearsIn_append_left _ (appearsIn_append_right _
          (appearsIn_append_left _ (appearsIn_joinSep _ hmem))))
  · intro h
    cases hoc : (other_texts c).isEmpty with
    | true => exact absurd (List.isEmpty_iff.mp hoc) h
    | false =>
        have hif : (if (other_texts c).isEmpty then ""
            else substHeader ++ joinSep "\n" (bulleted (other_texts c))) =
            substHeader ++ joinSep "\n" (bulleted (other_texts c)) := by
          rw [hoc]; simp
        constructor
        · rw [heq, hif]
          exact appearsIn_append_left _ (appearsIn_append_right _
            (appearsIn_append_left _ (appearsIn_refl substHeader)))
        · intro t ht
          have hmem : ("- " ++ t) ∈ bulleted (other_texts c) :=
            List.mem_map.mpr ⟨t, ht, rfl⟩
          rw [heq, hif]
          exact appearsIn_append_left _ (appearsIn_append_right _
            (appearsIn_append_right _ (appearsIn_joinSep _ hmem)))
  · intro h
    have hif : (if (other_texts c).isEmpty then ""
        else substHeader ++ joinSep "\n" (bulleted (other_texts c))) = "" := by
      rw [h]; simp
    rw [heq, hif, String.append_empty]
    by_cases hm : must_have_texts c = []
    · rw [hm]; simp
    · have hmh : (must_have_texts c).isEmpty = false := by
        cases hx : (must_have_texts c).isEmpty with
        | true => exact absurd (List.isEmpty_iff.mp hx) hm
        | false => rfl
      rw [hmh, if_neg hm]; simp
  · rw [heq]
    exact strSuffix_append promptTail _

/-- The example criterion of the specification, used as the C2 witness. -/
def exampleCriterion : Criterion :=
  Criterion.mk "Randomization" "high"
    [("Must Have", "A uses randomization"), ("Could Have", "B has control group"),
     ("Should Have", "C reports effect size")]

/-- A store holding the example criterion under the method Experiments. -/
def exampleStore : CriteriaStore := [("Experiments", [exampleCriterion])]

/-- Witness for C2 at the example store of the specification. -/
theorem c2_prompt_structure_witness :
    findDesc (criteriaGet exampleStore "Experiments") "Randomization" = some exampleCriterion ∧
    (appearsIn "Randomization"
        (generate_prompt_for_criterion exampleStore "Experiments" "Randomization").1 ∧
      (must_have_texts exampleCriterion = [] → appearsIn noMustLine
        (generate_prompt_for_criterion exampleStore "Experiments" "Randomization").1) ∧
      (∀ t ∈ must_have_texts exampleCriterion, appearsIn ("- " ++ t)
        (generate_prompt_for_criterion exampleStore "Experiments" "Randomization").1) ∧
      (other_texts exampleCriterion ≠ [] → appearsIn substHeader
          (generate_prompt_for_criterion exampleStore "Experiments" "Randomization").1 ∧
        ∀ t ∈ other_texts exampleCriterion, appearsIn ("- " ++ t)
          (generate_prompt_for_criterion exampleStore "Experiments" "Randomization").1) ∧
      (other_texts exampleCriterion = [] →
        (generate_prompt_for_criterion exampleStore "Experiments" "Randomization").1 =
          promptIntro ++ "Randomization" ++ "\n\n" ++ mustHeader ++
            (if must_have_texts exampleCriterion = [] then noMustLine
              else joinSep "\n" (bulleted (must_have_texts exampleCriterion)) ++ "\n") ++
            promptTail) ∧
      strSuffix promptTail
        (generate_prompt_for_criterion exampleStore "Experiments" "Randomization").1 ∧
      (∀ t, t ∈ must_have_texts exampleCriterion ↔
        ∃ pr, (pr, t) ∈ exampleCriterion.attributes ∧ strLower pr = "must have") ∧
      (∀ t, t ∈ other_texts exampleCriterion ↔
        ∃ pr, (pr, t) ∈ exampleCriterion.attributes ∧ strLower pr ≠ "must have")) :=
  ⟨rfl, c2_prompt_structure exampleStore "Experiments" "Randomization" exampleCriterion rfl⟩

/-!  Re-loading the same rows is a no-op: the machinery for C9.  -/

theorem lookup_of_findDesc_some {s : CriteriaStore} {m de : String} {c : Criterion}
    (h : findDesc (criteriaGet s m) de = some c) :
    lookupMethod s m = some (criteriaGet s m) := by
  cases hl : lookupMethod s m with
  | some cs => simp [criteriaGet, hl]
  | none =>
      have hg : criteriaGet s m = [] := by simp [criteriaGet, hl]
      rw [hg] at h
      simp [findDesc] at h

theorem add_criterion_noop {s : CriteriaStore} {m de : String} {c : Criterion}
    (l mo a : String) (hf : findDesc (criteriaGet s m) de = some c)
    (hmem : (mo, a) ∈ c.attributes) : add_criterion s m de l mo a = s := by
  have hl : lookupMethod s m = some (criteriaGet s m) := lookup_of_findDesc_some hf
  unfold add_criterion criteriaGetItem
  simp only [hl, hf]
  have hattr : c.add_attribute mo a = c := by
    unfold Criterion.add_attribute
    rw [if_pos hmem]
  rw [updateFirst_noop _ hf hattr]
  exact setEntry_of_lookup s m _ hl

/-- The pair is recorded on the criterion that the description lookup
returns. -/
def pairPresent (s : CriteriaStore) (m de : String) (pr : MoscowAttr) : Prop :=
  ∃ c, findDesc (criteriaGet s m) de = some c ∧ pr ∈ c.attributes

theorem pairPresent_add (s : CriteriaStore) (m de dd l mo a : String) (pr : MoscowAttr)
    (h : pairPresent s m dd pr) : pairPresent (add_criterion s m de l mo a) m dd pr := by
  obtain ⟨c, hf, hmem⟩ := h
  by_cases hde : dd = de
  · subst hde
    refine ⟨c.add_attribute mo a, ?_, (mem_add_attribute c mo a pr).mpr (Or.inl hmem)⟩
    rw [criteriaGet_add_of_found l mo a hf]
    exact findDesc_updateFirst_self _ (fun x => add_attribute_description x mo a) hf
  · cases hfe : findDesc (criteriaGet s m) de with
    | some c2 =>
        refine ⟨c, ?_, hmem⟩
        rw [criteriaGet_add_of_found l mo a hfe,
          findDesc_updateFirst_other _ (fun x => add_attribute_description x mo a) hde]
        exact hf
    | none =>
        refine ⟨c, ?_, hmem⟩
        rw [criteriaGet_add_of_none l mo a hfe, findDesc_append, hf]
        rfl

theorem pairPresent_load (m : String) (rows : List Row) (s : CriteriaStore) (dd : String)
    (pr : MoscowAttr) (h : pairPresent s m dd pr) :
    pairPresent (load_rows m s rows) m dd pr := by
  induction rows generalizing s with
  | nil => exact h
  | cons row rest ih =>
      cases hp : parseRow row with
      | some q =>
          obtain ⟨de, l, mo, a⟩ := q
          simp only [load_rows, hp]
          exact ih _ (pairPresent_add s m de dd l mo a pr h)
      | none =>
          simp only [load_rows, hp]
          exact ih _ h

theorem pairPresent_add_self (s : CriteriaStore) (m de l mo a : String) :
    pairPresent (add_criterion s m de l mo a) m de (mo, a) := by
  cases hf : findDesc (criteriaGet s m) de with
  | some c =>
      refine ⟨c.add_attribute mo a, ?_, (mem_add_attribute c mo a _).mpr (Or.inr rfl)⟩
      rw [criteriaGet_add_of_found l mo a hf]
      exact findDesc_updateFirst_self _ (fun x => add_attribute_description x mo a) hf
  | none =>
      refine ⟨Criterion.mk de l [(mo, a)], ?_, by simp⟩
      rw [criteriaGet_add_of_none l mo a hf, findDesc_append, hf]
      simp [findDesc]

theorem load_rows_all_present (m : String) (rows : List Row) (s : CriteriaStore) :
    ∀ r ∈ rows.filterMap parseRow,
      pairPresent (load_rows m s rows) m r.1 (r.2.2.1, r.2.2.2) := by
  induction rows generalizing s with
  | nil => intro r hr; cases hr
  | cons row rest ih =>
      intro r hr
      cases hp : parseRow row with
      | none =>
          simp only [load_rows, hp]
          rw [List.filterMap_cons, hp] at hr
          exact ih s r hr
      | some q =>
          obtain ⟨de, l, mo, a⟩ := q
          simp only [load_rows, hp]
          rw [List.filterMap_cons, hp] at hr
          rcases List.mem_cons.mp hr with hq | hq
          · subst hq
            exact pairPresent_load m rest _ _ _ (pairPresent_add_self s m de l mo a)
          · exact ih _ r hq

theorem load_rows_noop (m : String) (rows : List Row) (s : CriteriaStore)
    (h : ∀ r ∈ rows.filterMap parseRow, pairPresent s m r.1 (r.2.2.1, r.2.2.2)) :
    load_rows m s rows = s := by
  induction rows with
  | nil => rfl
  | cons row rest ih =>
      cases hp : parseRow row with
      | none =>
          simp only [load_rows, hp]
          refine ih ?_
          intro r hr
          refine h r ?_
          rw [List.filterMap_cons, hp]
          exact hr
      | some q =>
          obtain ⟨de, l, mo, a⟩ := q
          have hhead : pairPresent s m de (mo, a) := by
            refine h (de, l, mo, a) ?_
            rw [List.filterMap_cons, hp]
            exact List.mem_cons_self _ _
          obtain ⟨c, hf, hmem⟩ := hhead
          have hnoop : add_criterion s m de l mo a = s := add_criterion_noop l mo a hf hmem
          simp only [load_rows, hp, hnoop]
          refine ih ?_
          intro r hr
          refine h r ?_
          rw [List.filterMap_cons, hp]
          exact List.mem_cons_of_mem _ hr

/-- C9: loading the same CSV file twice equals loading it once — the
second pass finds every description present with every pair already in
its attribute set, so every add_criterion call is a no-op and the store
is left literally unchanged. -/
theorem c9_load_twice_eq_load_once (fs : FileSystem) (s : CriteriaStore) (path : String) :
    (load_from_csv fs s path).bind (fun s1 => load_from_csv fs s1 path) =
      load_from_csv fs s path := by
  cases hlf : lookupFile fs path with
  | none => simp [load_from_csv, hlf]
  | some rows =>
      cases rows with
      | nil => simp [load_from_csv, hlf]
      | cons header body =>
          have h1 : load_rows (splitext_stem (basename path))
              (load_rows (splitext_stem (basename path)) s body) body =
              load_rows (splitext_stem (basename path)) s body :=
            load_rows_noop _ body _ (load_rows_all_present _ body s)
          simp [load_from_csv, hlf, h1]

/-!  Order (in)dependence of loading: the machinery for C3.  -/

theorem pairsFor_cons_none (row : Row) (rest : List Row) (d : String)
    (hp : parseRow row = none) : pairsFor (row :: rest) d = pairsFor rest d := by
  unfold pairsFor
  rw [List.filterMap_cons_none hp]

theorem pairsFor_cons_some_eq (row : Row) (rest : List Row) (de l mo a : String)
    (hp : parseRow row = some (de, l, mo, a)) :
    pairsFor (row :: rest) de = (mo, a) :: pairsFor rest de := by
  unfold pairsFor
  rw [List.filterMap_cons_some hp, List.filter_cons_of_pos (by simp)]
  rfl

theorem pairsFor_cons_some_ne (row : Row) (rest : List Row) (d de l mo a : String)
    (hp : parseRow row = some (de, l, mo, a)) (hne : de ≠ d) :
    pairsFor (row :: rest) d = pairsFor rest d := by
  unfold pairsFor
  rw [List.filterMap_cons_some hp, List.filter_cons_of_neg (by simpa using hne)]

theorem firstLevelFor_cons_none (row : Row) (rest : List Row) (d : String)
    (hp : parseRow row = none) : firstLevelFor (row :: rest) d = firstLevelFor rest d := by
  unfold firstLevelFor
  rw [List.filterMap_cons_none hp]

theorem firstLevelFor_cons_some_eq (row : Row) (rest : List Row) (de l mo a : String)
    (hp : parseRow row = some (de, l, mo, a)) :
    firstLevelFor (row :: rest) de = some l := by
  unfold firstLevelFor
  rw [List.filterMap_cons_some hp, List.find?_cons_of_pos _ (by simp)]
  rfl

theorem firstLevelFor_cons_some_ne (row : Row) (rest : List Row) (d de l mo a : String)
    (hp : parseRow row = some (de, l, mo, a)) (hne : de ≠ d) :
    firstLevelFor (row :: rest) d = firstLevelFor rest d := by
  unfold firstLevelFor
  rw [List.filterMap_cons_some hp, List.find?_cons_of_neg _ (by simpa using hne)]

theorem findDesc_add_self_found {s : CriteriaStore} {m de : String} {c : Criterion}
    (l mo a : String) (hf : findDesc (criteriaGet s m) de = some c) :
    findDesc (criteriaGet (add_criterion s m de l mo a) m) de =
      some (c.add_attribute mo a) := by
  rw [criteriaGet_add_of_found l mo a hf]
  exact findDesc_updateFirst_self _ (fun x => add_attribute_description x mo a) hf

theorem findDesc_add_self_fresh {s : CriteriaStore} {m de : String}
    (l mo a : String) (hf : findDesc (criteriaGet s m) de = none) :
    findDesc (criteriaGet (add_criterion s m de l mo a) m) de =
      some (Criterion.mk de l [(mo, a)]) := by
  rw [criteriaGet_add_of_none l mo a hf, findDesc_append, hf]
  simp [findDesc]

theorem findDesc_add_other (s : CriteriaStore) (m de l mo a d : String) (hde : de ≠ d) :
    findDesc (criteriaGet (add_criterion s m de l mo a) m) d =
      findDesc (criteriaGet s m) d := by
  cases hfe : findDesc (criteriaGet s m) de with
  | some c2 =>
      rw [criteriaGet_add_of_found l mo a hfe,
        findDesc_updateFirst_other _ (fun x => add_attribute_description x mo a) (Ne.symm hde)]
  | none =>
      rw [criteriaGet_add_of_none l mo a hfe, findDesc_append]
      simp [findDesc, hde]

/-- Loading rows on top of a criterion already present for the description
keeps its position, description and level, and extends its attribute set
by exactly the pairs of the rows carrying the description. -/
theorem load_rows_found (m : String) (rows : List Row) (s : CriteriaStore) (d : String)
    (c : Criterion) (hf : findDesc (criteriaGet s m) d = some c) :
    ∃ cc, findDesc (criteriaGet (load_rows m s rows) m) d = some cc ∧
      cc.description = c.description ∧ cc.level = c.level ∧
      ∀ p, p ∈ cc.attributes ↔ (p ∈ c.attributes ∨ p ∈ pairsFor rows d) := by
  induction rows generalizing s c with
  | nil => exact ⟨c, hf, rfl, rfl, by simp [pairsFor]⟩
  | cons row rest ih =>
      cases hp : parseRow row with
      | none =>
          simp only [load_rows, hp]
          rw [pairsFor_cons_none row rest d hp]
          exact ih s c hf
      | some q =>
          obtain ⟨de, l0, mo, a⟩ := q
          simp only [load_rows, hp]
          by_cases hde : de = d
          · subst hde
            obtain ⟨cc, hcc, hd2, hl2, hmem2⟩ :=
              ih _ _ (findDesc_add_self_found l0 mo a hf)
            refine ⟨cc, hcc, ?_, ?_, ?_⟩
            · rw [hd2, add_attribute_description]
            · rw [hl2, add_attribute_level]
            · intro p
              rw [hmem2 p, mem_add_attribute, pairsFor_cons_some_eq row rest de l0 mo a hp,
                List.mem_cons]
              tauto
          · rw [pairsFor_cons_some_ne row rest d de l0 mo a hp hde]
            exact ih _ _ ((findDesc_add_other s m de l0 mo a d hde).trans hf)

/-- Loading rows over a store with no criterion for the description
creates exactly one, carrying the level of the first row with the
description and the pairs of all rows with it. -/
theorem load_rows_fresh (m : String) (rows : List Row) (s : CriteriaStore) (d l : String)
    (hf : findDesc (criteriaGet s m) d = none) (hl : firstLevelFor rows d = some l) :
    ∃ cc, findDesc (criteriaGet (load_rows m s rows) m) d = some cc ∧
      cc.description = d ∧ cc.level = l ∧
      ∀ p, p ∈ cc.attributes ↔ p ∈ pairsFor rows d := by
  induction rows generalizing s with
  | nil => simp [firstLevelFor] at hl
  | cons row rest ih =>
      cases hp : parseRow row with
      | none =>
          simp only [load_rows, hp]
          rw [firstLevelFor_cons_none row rest d hp] at hl
          rw [pairsFor_cons_none row rest d hp]
          exact ih s hf hl
      | some q =>
          obtain ⟨de, l0, mo, a⟩ := q
          by_cases hde : de = d
          · subst hde
            rw [firstLevelFor_cons_some_eq row rest de l0 mo a hp] at hl
            have hll : l0 = l := Option.some.inj hl
            subst hll
            simp only [load_rows, hp]
            obtain ⟨cc, hcc, hd2, hl2, hmem2⟩ :=
              load_rows_found m rest _ de _ (findDesc_add_self_fresh l0 mo a hf)
            refine ⟨cc, hcc, by simpa using hd2, by simpa using hl2, ?_⟩
            intro p
            rw [hmem2 p, pairsFor_cons_some_eq row rest de l0 mo a hp, List.mem_cons]
            simp
          · simp only [load_rows, hp]
            rw [firstLevelFor_cons_some_ne row rest d de l0 mo a hp hde] at hl
            rw [pairsFor_cons_some_ne row rest d de l0 mo a hp hde]
            exact ih _ ((findDesc_add_other s m de l0 mo a d hde).trans hf) hl

/-- The description lookup misses after loading exactly when it missed
before and no well-formed row carries the description. -/
theorem load_rows_none_iff (m : String) (rows : List Row) (s : CriteriaStore) (d : String) :
    findDesc (criteriaGet (load_rows m s rows) m) d = none ↔
      (findDesc (criteriaGet s m) d = none ∧ firstLevelFor rows d = none) := by
  induction rows generalizing s with
  | nil => simp [load_rows, firstLevelFor]
  | cons row rest ih =>
      cases hp : parseRow row with
      | none =>
          simp only [load_rows, hp]
          rw [firstLevelFor_cons_none row rest d hp]
          exact ih s
      | some q =>
          obtain ⟨de, l0, mo, a⟩ := q
          simp only [load_rows, hp]
          by_cases hde : de = d
          · subst hde
            rw [firstLevelFor_cons_some_eq row rest de l0 mo a hp]
            constructor
            · intro hnone
              exfalso
              have hsome : ∃ c0, findDesc (criteriaGet (add_criterion s m de l0 mo a) m) de =
                  some c0 := by
                cases hfe : findDesc (criteriaGet s m) de with
                | some c => exact ⟨_, findDesc_add_self_found l0 mo a hfe⟩
                | none => exact ⟨_, findDesc_add_self_fresh l0 mo a hfe⟩
              obtain ⟨c0, hc0⟩ := hsome
              obtain ⟨cc, hcc, _, _, _⟩ := load_rows_found m rest _ de _ hc0
              rw [hcc] at hnone
              cases hnone
            · rintro ⟨h1, h2⟩
              cases h2
          · rw [firstLevelFor_cons_some_ne row rest d de l0 mo a hp hde, ih _,
              findDesc_add_other s m de l0 mo a d hde]

theorem load_rows_other_method (m mm : String) (rows : List Row) (s : CriteriaStore)
    (h : mm ≠ m) : criteriaGet (load_rows m s rows) mm = criteriaGet s mm := by
  induction rows generalizing s with
  | nil => rfl
  | cons row rest ih =>
      cases hp : parseRow row with
      | none =>
          simp only [load_rows, hp]
          exact ih s
      | some q =>
          obtain ⟨de, l, mo, a⟩ := q
          simp only [load_rows, hp]
          rw [ih _, criteriaGet_add_other s m mm de l mo a h]

theorem firstLevelFor_eq_none_iff (rows : List Row) (d : String) :
    firstLevelFor rows d = none ↔ ∀ r ∈ rows.filterMap parseRow, r.1 ≠ d := by
  unfold firstLevelFor
  rw [Option.map_eq_none', List.find?_eq_none]
  simp

theorem firstLevelFor_some_elim {rows : List Row} {d l : String}
    (h : firstLevelFor rows d = some l) :
    ∃ r, r ∈ rows.filterMap parseRow ∧ r.1 = d ∧ r.2.1 = l := by
  unfold firstLevelFor at h
  cases hfind : (rows.filterMap parseRow).find? (fun r => r.1 == d) with
  | none => rw [hfind] at h; cases h
  | some r =>
      rw [hfind] at h
      refine ⟨r, List.mem_of_find?_eq_some hfind, by simpa using List.find?_some hfind, ?_⟩
      simpa using h

theorem firstLevelFor_isSome_intro {rows : List Row} {d : String}
    (h : ∃ r, r ∈ rows.filterMap parseRow ∧ r.1 = d) :
    ∃ l, firstLevelFor rows d = some l := by
  obtain ⟨r, hr, hrd⟩ := h
  have hs : ((rows.filterMap parseRow).find? (fun r => r.1 == d)).isSome :=
    List.find?_isSome.mpr ⟨r, hr, by simpa using hrd⟩
  obtain ⟨r2, hr2⟩ := Option.isSome_iff_exists.mp hs
  refine ⟨r2.2.1, ?_⟩
  unfold firstLevelFor
  rw [hr2]
  rfl

/-- For level-consistent rows the first-seen level of a description is a
permutation invariant. -/
theorem firstLevelFor_perm {rows rows2 : List Row} (hperm : List.Perm rows rows2)
    (hc : levelConsistent rows) (d : String) :
    firstLevelFor rows d = firstLevelFor rows2 d := by
  have hpf : List.Perm (rows.filterMap parseRow) (rows2.filterMap parseRow) :=
    hperm.filterMap _
  cases h1 : firstLevelFor rows d with
  | none =>
      cases h2 : firstLevelFor rows2 d with
      | none => rfl
      | some l2 =>
          obtain ⟨r, hr, hrd, hrl⟩ := firstLevelFor_some_elim h2
          have hrin : r ∈ rows.filterMap parseRow := hpf.mem_iff.mpr hr
          exact absurd hrd ((firstLevelFor_eq_none_iff rows d).mp h1 r hrin)
  | some l =>
      obtain ⟨r, hr, hrd, hrl⟩ := firstLevelFor_some_elim h1
      have hrin2 : r ∈ rows2.filterMap parseRow := hpf.mem_iff.mp hr
      obtain ⟨l2, h2⟩ := firstLevelFor_isSome_intro ⟨r, hrin2, hrd⟩
      obtain ⟨r2, hr2, hr2d, hr2l⟩ := firstLevelFor_some_elim h2
      have hr2in : r2 ∈ rows.filterMap parseRow := hpf.mem_iff.mpr hr2
      have hlev : r.2.1 = r2.2.1 := hc r r2 hr hr2in (hrd.trans hr2d.symm)
      rw [h2, ← hr2l, ← hlev, hrl]

theorem pairsFor_perm {rows rows2 : List Row} (hperm : List.Perm rows rows2) (d : String) :
    List.Perm (pairsFor rows d) (pairsFor rows2 d) :=
  ((hperm.filterMap parseRow).filter _).map _

theorem mem_map_desc_iff {cs : List Criterion} {d : String} :
    d ∈ cs.map Criterion.description ↔ findDesc cs d ≠ none := by
  constructor
  · intro hmem hnone
    obtain ⟨c, hcmem, hcd⟩ := List.mem_map.mp hmem
    exact (findDesc_none_iff cs d).mp hnone c hcmem hcd
  · intro h
    by_contra hmem
    apply h
    rw [findDesc_none_iff]
    intro c hcmem hcd
    exact hmem (List.mem_map.mpr ⟨c, hcmem, hcd⟩)

/-- Loading never duplicates a description inside a method entry. -/
theorem descs_nodup_load (m : String) (rows : List Row) (s : CriteriaStore)
    (h : ((criteriaGet s m).map Criterion.description).Nodup) :
    ((criteriaGet (load_rows m s rows) m).map Criterion.description).Nodup := by
  induction rows generalizing s with
  | nil => exact h
  | cons row rest ih =>
      cases hp : parseRow row with
      | none =>
          simp only [load_rows, hp]
          exact ih s h
      | some q =>
          obtain ⟨de, l, mo, a⟩ := q
          simp only [load_rows, hp]
          refine ih _ ?_
          cases hf : findDesc (criteriaGet s m) de with
          | some c =>
              rw [criteriaGet_add_of_found l mo a hf,
                updateFirst_map_desc _ (fun x => add_attribute_description x mo a)]
              exact h
          | none =>
              rw [criteriaGet_add_of_none l mo a hf, List.map_append, List.nodup_append]
              refine ⟨h, by simp, ?_⟩
              intro x hx hx2
              have hxde : x = de := by simpa using hx2
              subst hxde
              exact (mem_map_desc_iff.mp hx) hf

/-- Loading a permutation of level-consistent rows into the empty store
gives observably the same contents: per method the same number of
criteria, and per description the same hit-or-miss answer, level and
attribute set. -/
theorem load_rows_perm_observable (m : String) (rows rows2 : List Row)
    (hperm : List.Perm rows rows2) (hc : levelConsistent rows) (mm : String) :
    (criteriaGet (load_rows m ([] : CriteriaStore) rows) mm).length =
      (criteriaGet (load_rows m ([] : CriteriaStore) rows2) mm).length ∧
    ∀ d, viewEq (findDesc (criteriaGet (load_rows m ([] : CriteriaStore) rows) mm) d)
      (findDesc (criteriaGet (load_rows m ([] : CriteriaStore) rows2) mm) d) := by
  by_cases hmm : mm = m
  · subst hmm
    have hview : ∀ d, viewEq (findDesc (criteriaGet (load_rows mm [] rows) mm) d)
        (findDesc (criteriaGet (load_rows mm [] rows2) mm) d) := by
      intro d
      cases hfl : firstLevelFor rows d with
      | none =>
          have hfl2 : firstLevelFor rows2 d = none := by
            rw [← firstLevelFor_perm hperm hc d]
            exact hfl
          have h1 : findDesc (criteriaGet (load_rows mm [] rows) mm) d = none :=
            (load_rows_none_iff mm rows [] d).mpr ⟨rfl, hfl⟩
          have h2 : findDesc (criteriaGet (load_rows mm [] rows2) mm) d = none :=
            (load_rows_none_iff mm rows2 [] d).mpr ⟨rfl, hfl2⟩
          refine ⟨by rw [h1, h2], fun c1 c2 hc1 hc2 => ?_⟩
          rw [h1] at hc1
          cases hc1
      | some l =>
          have hfl2 : firstLevelFor rows2 d = some l := by
            rw [← firstLevelFor_perm hperm hc d]
            exact hfl
          obtain ⟨cc1, h1, hd1, hl1, hm1⟩ := load_rows_fresh mm rows [] d l rfl hfl
          obtain ⟨cc2, h2, hd2, hl2, hm2⟩ := load_rows_fresh mm rows2 [] d l rfl hfl2
          refine ⟨by rw [h1, h2]; simp, fun c1 c2 hc1 hc2 => ?_⟩
          rw [h1] at hc1
          rw [h2] at hc2
          obtain rfl : cc1 = c1 := Option.some.inj hc1
          obtain rfl : cc2 = c2 := Option.some.inj hc2
          refine ⟨by rw [hd1, hd2], by rw [hl1, hl2], fun p => ?_⟩
          rw [hm1 p, hm2 p]
          exact (pairsFor_perm hperm d).mem_iff
    refine ⟨?_, hview⟩
    have hn1 : ((criteriaGet (load_rows mm [] rows) mm).map Criterion.description).Nodup :=
      descs_nodup_load mm rows [] List.Pairwise.nil
    have hn2 : ((criteriaGet (load_rows mm [] rows2) mm).map Criterion.description).Nodup :=
      descs_nodup_load mm rows2 [] List.Pairwise.nil
    have hmemiff : ∀ d, d ∈ (criteriaGet (load_rows mm [] rows) mm).map Criterion.description ↔
        d ∈ (criteriaGet (load_rows mm [] rows2) mm).map Criterion.description := by
      intro d
      rw [mem_map_desc_iff, mem_map_desc_iff]
      have hv := (hview d).1
      constructor
      · intro hne hnone2
        exact hne (hv.mpr hnone2)
      · intro hne hnone1
        exact hne (hv.mp hnone1)
    have hpermdesc := (List.perm_ext_iff_of_nodup hn1 hn2).mpr hmemiff
    have hlen := hpermdesc.length_eq
    simpa using hlen
  · rw [load_rows_other_method m mm rows [] hmm, load_rows_other_method m mm rows2 [] hmm]
    refine ⟨rfl, fun d => ⟨Iff.rfl, fun c1 c2 h1 h2 => ?_⟩⟩
    simp [criteriaGet, lookupMethod, findDesc] at h1

/-- C3 (amended): loading a permutation of the rows of a CSV file through
load_from_csv yields observably the same store, provided the rows are
level-consistent (rows sharing a description carry the same level); the
level of the first-loaded row is kept, so without that restriction
permuting rows that disagree on the level changes the stored level. -/
theorem c3_load_order_irrelevant (path : String) (header : Row) (rows rows2 : List Row)
    (hperm : List.Perm rows rows2) (hc : levelConsistent rows) :
    ∃ s1 s2, load_from_csv [(path, header :: rows)] [] path = some s1 ∧
      load_from_csv [(path, header :: rows2)] [] path = some s2 ∧
      ∀ mm, (criteriaGet s1 mm).length = (criteriaGet s2 mm).length ∧
        ∀ d, viewEq (findDesc (criteriaGet s1 mm) d) (findDesc (criteriaGet s2 mm) d) := by
  have hlf1 : lookupFile [(path, header :: rows)] path = some (header :: rows) := by
    unfold lookupFile
    rw [List.find?_cons_of_pos _ (by simp)]
    rfl
  have hlf2 : lookupFile [(path, header :: rows2)] path = some (header :: rows2) := by
    unfold lookupFile
    rw [List.find?_cons_of_pos _ (by simp)]
    rfl
  refine ⟨load_rows (splitext_stem (basename path)) [] rows,
    load_rows (splitext_stem (basename path)) [] rows2, ?_, ?_, ?_⟩
  · unfold load_from_csv
    rw [hlf1]
  · unfold load_from_csv
    rw [hlf2]
  · exact fun mm => load_rows_perm_observable (splitext_stem (basename path)) rows rows2
      hperm hc mm

/-- Counterexample to C3 as stated: two well-formed rows sharing the
description but not the level; permuting them changes the stored level,
so loading a permutation is not observably the same. -/
theorem c3_counterexample :
    List.Perm ([["D", "L1", "M", "A"], ["D", "L2", "M", "B"]] : List Row)
      [["D", "L2", "M", "B"], ["D", "L1", "M", "A"]] ∧
    (load_from_csv [("csv/m.csv",
        [["h1", "h2", "h3", "h4"], ["D", "L1", "M", "A"], ["D", "L2", "M", "B"]])] [] "csv/m.csv").map
      (fun st => (findDesc (criteriaGet st "m") "D").map Criterion.level) = some (some "L1") ∧
    (load_from_csv [("csv/m.csv",
        [["h1", "h2", "h3", "h4"], ["D", "L2", "M", "B"], ["D", "L1", "M", "A"]])] [] "csv/m.csv").map
      (fun st => (findDesc (criteriaGet st "m") "D").map Criterion.level) = some (some "L2") :=
  ⟨by decide, by decide, by decide⟩

/-- Witness for C3 (amended) at two concrete level-consistent rows. -/
theorem c3_load_order_irrelevant_witness :
    List.Perm ([["R", "high", "Must Have", "x"], ["S", "low", "Could Have", "y"]] : List Row)
      [["S", "low", "Could Have", "y"], ["R", "high", "Must Have", "x"]] ∧
    levelConsistent [["R", "high", "Must Have", "x"], ["S", "low", "Could Have", "y"]] ∧
    (∃ s1 s2, load_from_csv [("csv/Experiments.csv",
        [["h1", "h2", "h3", "h4"], ["R", "high", "Must Have", "x"],
         ["S", "low", "Could Have", "y"]])] [] "csv/Experiments.csv" = some s1 ∧
      load_from_csv [("csv/Experiments.csv",
        [["h1", "h2", "h3", "h4"], ["S", "low", "Could Have", "y"],
         ["R", "high", "Must Have", "x"]])] [] "csv/Experiments.csv" = some s2 ∧
      ∀ mm, (criteriaGet s1 mm).length = (criteriaGet s2 mm).length ∧
        ∀ d, viewEq (findDesc (criteriaGet s1 mm) d) (findDesc (criteriaGet s2 mm) d)) := by
  have hc : levelConsistent [["R", "high", "Must Have", "x"], ["S", "low", "Could Have", "y"]] := by
    intro r1 r2 h1 h2 heq
    have hfm : ([["R", "high", "Must Have", "x"],
        ["S", "low", "Could Have", "y"]] : List Row).filterMap parseRow =
        [("R", "high", "Must Have", "x"), ("S", "low", "Could Have", "y")] := rfl
    rw [hfm] at h1 h2
    rcases List.mem_cons.mp h1 with rfl | h1 <;> rcases List.mem_cons.mp h2 with rfl | h2
    · rfl
    · have h2s : r2 = ("S", "low", "Could Have", "y") := by simpa using h2
      subst h2s
      simp at heq
    · have h1s : r1 = ("S", "low", "Could Have", "y") := by simpa using h1
      subst h1s
      simp at heq
    · have h1s : r1 = ("S", "low", "Could Have", "y") := by simpa using h1
      have h2s : r2 = ("S", "low", "Could Have", "y") := by simpa using h2
      subst h1s
      subst h2s
      rfl
  exact ⟨by decide, hc,
    c3_load_order_irrelevant "csv/Experiments.csv" ["h1", "h2", "h3", "h4"]
      [["R", "high", "Must Have", "x"], ["S", "low", "Could Have", "y"]]
      [["S", "low", "Could Have", "y"], ["R", "high", "Must Have", "x"]] (by decide) hc⟩

/-!  Availability of criteria files: the machinery for C4.  -/

/-- C4 exactly as stated: the resolved path is the base directory "csv/"
followed by the method name and ".csv"; when that file exists the store
is loaded through load_from_csv and the criteria for the method are
returned; when it does not exist the sentinel none is returned with the
store untouched and nothing raised. -/
def availabilityAsClaimed (fs : FileSystem) (s : CriteriaStore) (m : String) : Prop :=
  (lookupFile fs ("csv/" ++ m ++ ".csv") = none →
    is_criteria_available fs s m = Except.ok (none, s)) ∧
  (lookupFile fs ("csv/" ++ m ++ ".csv") ≠ none →
    ∃ s2, load_from_csv fs s ("csv/" ++ m ++ ".csv") = some s2 ∧
      is_criteria_available fs s m =
        Except.ok (some (get_criteria_for_method s2 m).1, s2))

theorem startsWithSlash_append_of (m x : String) (hx : startsWithSlash x = false)
    (hm : startsWithSlash m = false) : startsWithSlash (m ++ x) = false := by
  unfold startsWithSlash at hm hx ⊢
  rw [toList_append]
  cases hml : m.toList with
  | nil => simpa using hx
  | cons c cs =>
      rw [hml] at hm
      simpa using hm

/-- Counterexample to C4 as stated.  First input: a method name beginning
with a slash makes os.path.join discard the base directory, so the file
sitting at the claimed path is never consulted.  Second input: an
existing empty file makes the header skip raise StopIteration instead of
returning the criteria list. -/
theorem c4_counterexample :
    ¬ availabilityAsClaimed
        [("csv//x.csv", [["h1", "h2", "h3", "h4"], ["D", "L", "M", "A"]])] [] "/x" ∧
    ¬ availabilityAsClaimed [("csv/M.csv", ([] : List Row))] [] "M" := by
  constructor
  · rintro ⟨h1, h2⟩
    obtain ⟨s2, hload, havail⟩ := h2 (by decide)
    have hcode : is_criteria_available
        [("csv//x.csv", [["h1", "h2", "h3", "h4"], ["D", "L", "M", "A"]])] [] "/x" =
        Except.ok (none, ([] : CriteriaStore)) := rfl
    rw [hcode] at havail
    simp at havail
  · rintro ⟨h1, h2⟩
    obtain ⟨s2, hload, havail⟩ := h2 (by decide)
    have hl0 : load_from_csv [("csv/M.csv", ([] : List Row))] []
        ("csv/" ++ "M" ++ ".csv") = none := rfl
    rw [hl0] at hload
    cases hload

/-- C4 (amended): for every method name not beginning with a slash, and
provided the resolved file is not empty when it exists,
is_criteria_available behaves exactly as claimed: it resolves
csv/<method>.csv, loads it through load_from_csv and returns the
criteria for the method when the file exists, and returns the sentinel
none with the store untouched and nothing raised when it does not. -/
theorem c4_available_amended (fs : FileSystem) (s : CriteriaStore) (m : String)
    (hm : startsWithSlash m = false)
    (hne : ∀ rows, lookupFile fs ("csv/" ++ m ++ ".csv") = some rows → rows ≠ []) :
    availabilityAsClaimed fs s m := by
  have hsw : startsWithSlash (m ++ ".csv") = false :=
    startsWithSlash_append_of m ".csv" (by decide) hm
  have hpath : os_path_join "csv/" (m ++ ".csv") = "csv/" ++ m ++ ".csv" := by
    unfold os_path_join
    rw [hsw]
    simp [show endsWithSlash "csv/" = true from rfl, String.append_assoc]
  constructor
  · intro habs
    simp only [is_criteria_available, hpath, habs]
  · intro hne2
    cases hlf : lookupFile fs ("csv/" ++ m ++ ".csv") with
    | none => exact absurd hlf hne2
    | some rows =>
        cases rows with
        | nil => exact absurd rfl (hne _ hlf)
        | cons header body =>
            refine ⟨load_rows (splitext_stem (basename ("csv/" ++ m ++ ".csv"))) s body,
              ?_, ?_⟩
            · unfold load_from_csv
              rw [hlf]
            · simp only [is_criteria_available, hpath, hlf, load_from_csv]
              rfl

/-- Witness for C4 (amended) at a one-file filesystem. -/
theorem c4_available_amended_witness :
    startsWithSlash "Experiments" = false ∧
    (∀ rows, lookupFile [("csv/Experiments.csv",
        [["h1", "h2", "h3", "h4"], ["R", "high", "Must Have", "x"]])]
        ("csv/" ++ "Experiments" ++ ".csv") = some rows → rows ≠ []) ∧
    availabilityAsClaimed [("csv/Experiments.csv",
        [["h1", "h2", "h3", "h4"], ["R", "high", "Must Have", "x"]])] [] "Experiments" := by
  have hb : ∀ rows, lookupFile [("csv/Experiments.csv",
      [["h1", "h2", "h3", "h4"], ["R", "high", "Must Have", "x"]])]
      ("csv/" ++ "Experiments" ++ ".csv") = some rows → rows ≠ [] := by
    intro rows h
    have hl : lookupFile [("csv/Experiments.csv",
        [["h1", "h2", "h3", "h4"], ["R", "high", "Must Have", "x"]])]
        ("csv/" ++ "Experiments" ++ ".csv") =
        some [["h1", "h2", "h3", "h4"], ["R", "high", "Must Have", "x"]] := rfl
    rw [hl] at h
    have hrows := (Option.some.inj h).symm
    subst hrows
    simp
  exact ⟨by decide, hb, c4_available_amended _ _ "Experiments" (by decide) hb⟩

end EMSERMs
